import Mathlib

/-!
Shallow embedding of the rate/history store (`src/lib/db.ts`) and the
user/auth store (`src/lib/actions/auth.ts`) of the JMP repository.

Each persisted JSON file is modelled as `Option (List _)` (`none` = the file
does not exist yet).  Every store operation is a pure function from the store
state to a pair of (result, new store state), mirroring the
load / mutate-in-memory / save-whole-file pattern of the source.  Wall-clock
reads (`Date.now()`, `new Date()`) and the `Math.random()` draw are passed in
as explicit parameters.  JavaScript numbers used as rate values are modelled
as `Rat`; integral ids as `Int`, where an id of `0` plays the role of a
falsy (`0`/missing) id, which is equivalent for every use the source makes of
ids (`rate.id || 0`, `formRate.id || ++maxId`, `if (!rate.id)`).
-/

/-- A BOPP rate record `{id, key, value}` as persisted in `bopp_rates.json`. -/
structure BoppRate where
  id : Int
  key : String
  value : Rat
deriving DecidableEq, Repr

/-- A history entry `{id, changed_at, changed_by_id, changed_by_name, rates_snapshot}`
as persisted in `bopp_rate_history.json`; `changed_at` is a millisecond timestamp. -/
structure BoppRateHistory where
  id : Int
  changed_at : Int
  changed_by_id : String
  changed_by_name : String
  rates_snapshot : List BoppRate
deriving DecidableEq, Repr

/-- `initialDefaultRates` of `db.ts`. -/
def initialDefaultRates : List BoppRate := [
  ⟨1, "adhesive_less_rate", 80⟩,
  ⟨2, "adhesive_rate", 90⟩,
  ⟨3, "bopp_film_rate", 118⟩,
  ⟨4, "brown_tape", 105⟩,
  ⟨5, "coating_exp", 12⟩,
  ⟨6, "color_tape", 250⟩,
  ⟨7, "double_colour_printed", 225⟩,
  ⟨8, "four_colour_printed", 350⟩,
  ⟨9, "full_print", 1000⟩,
  ⟨10, "milky_white", 160⟩,
  ⟨11, "natural", 0⟩,
  ⟨12, "packing_cost", 60⟩,
  ⟨13, "profit", 10⟩,
  ⟨14, "single_colour_printed", 150⟩,
  ⟨15, "three_colour_printed", 300⟩,
  ⟨16, "transparent", 0⟩]

/-- `initialMockRateHistory` of `db.ts`; `t0` is the module-load time at which
`Date.now()` was sampled for the two seeded entries. -/
def initialMockRateHistory (t0 : Int) : List BoppRateHistory := [
  ⟨1, t0 - 2 * 24 * 60 * 60 * 1000, "system-init", "System Initialization",
    [⟨3, "bopp_film_rate", 110⟩, ⟨2, "adhesive_rate", 80⟩,
     ⟨12, "packing_cost", 50⟩, ⟨13, "profit", 7⟩]⟩,
  ⟨2, t0 - 1 * 24 * 60 * 60 * 1000, "system-init", "System Initialization",
    [⟨3, "bopp_film_rate", 115⟩, ⟨2, "adhesive_rate", 85⟩,
     ⟨12, "packing_cost", 55⟩, ⟨13, "profit", 8⟩]⟩]

/-- A JavaScript `Map<string, BoppRate>` keyed by `key`, represented as its
entry list in insertion order.  `Map.set` replaces the value in place when the
key is present and appends the entry otherwise. -/
def mapSet (l : List BoppRate) (r : BoppRate) : List BoppRate :=
  if l.any (fun x => x.key == r.key) then
    l.map (fun x => if x.key == r.key then r else x)
  else l ++ [r]

/-- The keys of a rate list, in order. -/
def rateKeys (l : List BoppRate) : List String := l.map (fun r => r.key)

/-- The ids of a rate list, in order. -/
def rateIds (l : List BoppRate) : List Int := l.map (fun r => r.id)

/-- First pass of `loadRatesFromFile`: running maximum of the truthy default
ids (`if (defaultRate.id && defaultRate.id > maxId) maxId = defaultRate.id`). -/
def defaultsMaxId : Int :=
  initialDefaultRates.foldl (fun m r => if r.id ≠ 0 ∧ m < r.id then r.id else m) 0

/-- Second pass of `loadRatesFromFile` over the defaults:
`if (!defaultRate.id) defaultRate.id = ++maxId; map.set(key, {...defaultRate})`. -/
def seedStep (acc : List BoppRate × Int) (d : BoppRate) : List BoppRate × Int :=
  if d.id = 0 then (mapSet acc.1 { d with id := acc.2 + 1 }, acc.2 + 1)
  else (mapSet acc.1 d, acc.2)

/-- The map seeded with every default rate, together with the running max id. -/
def seededDefaults : List BoppRate × Int :=
  initialDefaultRates.foldl seedStep ([], defaultsMaxId)

/-- File-overlay pass of `loadRatesFromFile`:
`if (!r.id) r.id = ++maxId; else if (r.id > maxId) maxId = r.id;`
`map.set(r.key, {...map.get(r.key), ...r})` (the spread merge equals `r`
because every field of `r` is set by then). -/
def overlayStep (acc : List BoppRate × Int) (r : BoppRate) : List BoppRate × Int :=
  if r.id = 0 then (mapSet acc.1 { r with id := acc.2 + 1 }, acc.2 + 1)
  else (mapSet acc.1 r, max acc.2 r.id)

/-- Defaults overlaid with the rates read from the file. -/
def overlayFileRates (file : List BoppRate) : List BoppRate × Int :=
  file.foldl overlayStep seededDefaults

/-- `loadRatesFromFile`: overlay defaults with the file when it exists;
when the file is missing (`ENOENT`), write the defaults through and return
them.  Returns (loaded rates, rates file after the call). -/
def loadRatesFromFile : Option (List BoppRate) → List BoppRate × Option (List BoppRate)
  | some file => ((overlayFileRates file).1, some file)
  | none => (initialDefaultRates, some initialDefaultRates)

/-- `loadHistoryFromFile`: parse the file when it exists; when missing, write
the seeded default history through and return it.  `t0` is the module-load
time baked into the seeded entries. -/
def loadHistoryFromFile (t0 : Int) :
    Option (List BoppRateHistory) → List BoppRateHistory × Option (List BoppRateHistory)
  | some h => (h, some h)
  | none => (initialMockRateHistory t0, some (initialMockRateHistory t0))

/-- `Math.max(0, ...history.map(h => h.id || 0))`. -/
def jsMaxHistoryId (h : List BoppRateHistory) : Int :=
  h.foldl (fun m e => max m e.id) 0

/-- `history.length > 0 ? Math.max(0, ...history.map(h => h.id || 0)) + 1 : 1`. -/
def nextHistoryId (h : List BoppRateHistory) : Int :=
  if h.length > 0 then jsMaxHistoryId h + 1 else 1

/-- `currentRatesInFile.reduce((max, rate) => Math.max(max, rate.id || 0), 0)`. -/
def jsMaxRateId (l : List BoppRate) : Int :=
  l.foldl (fun m r => max m r.id) 0

/-- `currentRatesInFile.forEach(rate => map.set(rate.key, {...rate}))`. -/
def rebuildRatesMap (l : List BoppRate) : List BoppRate :=
  l.foldl (fun acc r => mapSet acc r) []

/-- One `newRatesFromForm.forEach` iteration of `updateBoppRates`: overwrite
only the value when the key exists, otherwise insert with the supplied id when
it is truthy or with `++maxCurrentId` (the increment happens only when the
supplied id is falsy, by `||` short-circuiting). -/
def mergeStep (acc : List BoppRate × Int) (f : BoppRate) : List BoppRate × Int :=
  if acc.1.any (fun x => x.key == f.key) then
    (acc.1.map (fun x => if x.key == f.key then { x with value := f.value } else x), acc.2)
  else if f.id ≠ 0 then (acc.1 ++ [{ id := f.id, key := f.key, value := f.value }], acc.2)
  else (acc.1 ++ [{ id := acc.2 + 1, key := f.key, value := f.value }], acc.2 + 1)

/-- The merged rate set saved by `updateBoppRates` (lines 194-212 of `db.ts`). -/
def mergeRates (current form : List BoppRate) : List BoppRate :=
  (form.foldl mergeStep (rebuildRatesMap current, jsMaxRateId current)).1

/-- The two persisted records of the rate store: `bopp_rates.json` and
`bopp_rate_history.json`, each `none` until first written. -/
structure RateStore where
  ratesFile : Option (List BoppRate)
  historyFile : Option (List BoppRateHistory)
deriving DecidableEq, Repr

/-- `getBoppRates`: returns the loaded rates; seeding on a missing file is the
only storage effect. -/
def getBoppRates (s : RateStore) : List BoppRate × RateStore :=
  let loaded := loadRatesFromFile s.ratesFile
  (loaded.1, { s with ratesFile := loaded.2 })

/-- `updateBoppRates`: load rates and history, prepend a history entry holding
a deep copy of the pre-update rates, merge the form rates in by key, then save
the merged rates and the first 50 history entries.  The net store state is the
finally saved pair (an intermediate seed of a missing file is overwritten by
the save). -/
def updateBoppRates (form : List BoppRate) (userId userName : String) (now t0 : Int)
    (s : RateStore) : RateStore :=
  let current := (loadRatesFromFile s.ratesFile).1
  let history := (loadHistoryFromFile t0 s.historyFile).1
  let entry : BoppRateHistory :=
    { id := nextHistoryId history, changed_at := now, changed_by_id := userId,
      changed_by_name := userName, rates_snapshot := current }
  { ratesFile := some (mergeRates current form),
    historyFile := some ((entry :: history).take 50) }

/-- `getRateHistory(limit)`: the newest `limit` entries (`history.slice(0, limit)`);
seeding on a missing file is the only storage effect. -/
def getRateHistory (limit : Nat) (t0 : Int) (s : RateStore) :
    List BoppRateHistory × RateStore :=
  let loaded := loadHistoryFromFile t0 s.historyFile
  (loaded.1.take limit, { s with historyFile := loaded.2 })

/-- User roles. -/
inductive Role where
  | admin
  | employee
deriving DecidableEq, Repr

/-- A user record as persisted in `users.json`.  `otp_created_at` is a
millisecond timestamp (`Date`); absent fields are `none`. -/
structure AuthenticatedUser where
  id : String
  name : String
  role : Role
  password : Option String := none
  otp : Option String := none
  otp_created_at : Option Int := none
deriving DecidableEq, Repr

/-- `initialMockUsers` of `auth.ts`. -/
def initialMockUsers : List AuthenticatedUser := [
  { id := "admin", name := "Administrator", role := Role.admin },
  { id := "employee", name := "Default Employee", role := Role.employee },
  { id := "emp001", name := "Alice Smith", role := Role.employee },
  { id := "adm001", name := "Bob Johnson (Admin)", role := Role.admin }]

/-- The persisted `users.json` record, `none` until first written. -/
abbrev UsersFile := Option (List AuthenticatedUser)

/-- `loadUsersFromFile`: parse the file when it exists; when missing, write the
default users through and return a copy. -/
def loadUsersFromFile : UsersFile → List AuthenticatedUser × UsersFile
  | some l => (l, some l)
  | none => (initialMockUsers, some initialMockUsers)

/-- The `{id, name, role}` projection returned to callers on success. -/
structure UserView where
  id : String
  name : String
  role : Role
deriving DecidableEq, Repr

/-- `LoginResponse` of `auth.ts`. -/
structure LoginResponse where
  success : Bool
  user : Option UserView := none
  error : Option String := none
deriving DecidableEq, Repr

/-- `BasicResponse` of `auth.ts`. -/
structure BasicResponse where
  success : Bool
  message : Option String := none
  error : Option String := none
  otp : Option String := none
deriving DecidableEq, Repr

/-- `UserDetailsResponse` of `auth.ts`. -/
structure UserDetailsResponse where
  success : Bool
  user : Option UserView := none
  error : Option String := none
deriving DecidableEq, Repr

/-- JavaScript `String.prototype.toLowerCase()` restricted to its per-character
behaviour (the ids of this store are ASCII). -/
def jsToLowerCase (s : String) : String := ⟨s.data.map Char.toLower⟩

/-- Replace the first element satisfying `p` (JS `find` returns a reference
that the source then mutates; later duplicates are untouched). -/
def updateFirst {α : Type} (p : α → Bool) (f : α → α) : List α → List α
  | [] => []
  | x :: xs => if p x then f x :: xs else x :: updateFirst p f xs

/-- `fetchUserDetails`: case-insensitive id lookup. -/
def fetchUserDetails (userId : String) (st : UsersFile) : UserDetailsResponse × UsersFile :=
  let loaded := loadUsersFromFile st
  match loaded.1.find? (fun u => jsToLowerCase u.id == jsToLowerCase userId) with
  | some u => ({ success := true, user := some ⟨u.id, u.name, u.role⟩ }, loaded.2)
  | none => ({ success := false, error := some "User not found" }, loaded.2)

/-- `loginUser`: exact-id lookup; only admins can log in here.  The well-known
pair "admin"/"admin" is special-cased; every other admin is compared against
the stored plaintext password (JS `===`, where two `undefined`s are equal). -/
def loginUser (userId : String) (password : Option String) (st : UsersFile) :
    LoginResponse × UsersFile :=
  let loaded := loadUsersFromFile st
  match loaded.1.find? (fun u => u.id == userId) with
  | none => ({ success := false, error := some "User not found" }, loaded.2)
  | some user =>
    if user.role = Role.admin then
      if user.id = "admin" ∧ password = some "admin" then
        ({ success := true, user := some ⟨user.id, user.name, user.role⟩ }, loaded.2)
      else if user.id ≠ "admin" ∧ user.password = password then
        ({ success := true, user := some ⟨user.id, user.name, user.role⟩ }, loaded.2)
      else
        ({ success := false, error := some "Invalid credentials for this admin user." }, loaded.2)
    else
      ({ success := false,
         error := some "Login method not applicable for this user type here." }, loaded.2)

/-- `generateAndStoreOTP`: for the first user matching (id, role=employee),
store a fresh 6-digit code and the current time, and save.  The
`Math.random()` draw is modelled by the parameter `rnd`; the generated code is
`Math.floor(100000 + rnd * 900000).toString()` with `rnd` already scaled, i.e.
a number in `100000..999999`. -/
def generateAndStoreOTP (userId : String) (rnd : Nat) (now : Int) (st : UsersFile) :
    BasicResponse × UsersFile :=
  let loaded := loadUsersFromFile st
  match loaded.1.find? (fun u => u.id == userId && u.role == Role.employee) with
  | some _ =>
    let newOtp := toString (100000 + rnd % 900000)
    let users := updateFirst (fun u => u.id == userId && u.role == Role.employee)
      (fun u => { u with otp := some newOtp, otp_created_at := some now }) loaded.1
    ({ success := true, otp := some newOtp,
       message := some "OTP generated successfully." }, some users)
  | none =>
    ({ success := false,
       error := some "Failed to generate OTP. User not found or not an employee." }, loaded.2)

/-- `verifyOtp`: find the employee by exact id; `!user.otp` is true in JS both
when the field is absent and when it is the empty string, while a present
`otp_created_at` is always a (truthy) `Date` after loading, so only absence is
falsy there.  Expiry: `now - otp_created_at > 5 * 60 * 1000`.  Match: exact
string equality.  The OTP is not cleared on success; no branch writes the
file.  (The `isNaN` guard of the source is unreachable here because loaded
timestamps are modelled as valid integers.) -/
def verifyOtp (userId otpInput : String) (now : Int) (st : UsersFile) :
    LoginResponse × UsersFile :=
  let loaded := loadUsersFromFile st
  match loaded.1.find? (fun u => u.id == userId && u.role == Role.employee) with
  | none => ({ success := false, error := some "User not found" }, loaded.2)
  | some user =>
    match user.otp, user.otp_created_at with
    | some c, some t =>
      if c = "" then
        ({ success := false,
           error := some "No active OTP found for this user. Please generate one." }, loaded.2)
      else if now - t > 5 * 60 * 1000 then
        ({ success := false,
           error := some "OTP has expired. Please generate a new one." }, loaded.2)
      else if otpInput = c then
        ({ success := true, user := some ⟨user.id, user.name, user.role⟩ }, loaded.2)
      else
        ({ success := false, error := some "Invalid OTP" }, loaded.2)
    | _, _ =>
      ({ success := false,
         error := some "No active OTP found for this user. Please generate one." }, loaded.2)

/-- `addUser`: fail when the id already exists case-insensitively; store a
password only for admins; append and save. -/
def addUser (userId userName passwordProvided : String) (role : Role) (st : UsersFile) :
    BasicResponse × UsersFile :=
  let loaded := loadUsersFromFile st
  if loaded.1.any (fun u => jsToLowerCase u.id == jsToLowerCase userId) then
    ({ success := false, error := some "User with this ID already exists." }, loaded.2)
  else
    let newUser : AuthenticatedUser :=
      { id := userId, name := userName, role := role,
        password := if role = Role.admin then some passwordProvided else none }
    ({ success := true,
       message := some ("User " ++ userName ++ " added successfully.") },
     some (loaded.1 ++ [newUser]))

/-- `deleteUser`: the protected ids "admin" and "employee" always fail;
otherwise filter by exact id and save only when something was removed. -/
def deleteUser (userIdToDelete : String) (st : UsersFile) : BasicResponse × UsersFile :=
  let loaded := loadUsersFromFile st
  if userIdToDelete = "admin" ∨ userIdToDelete = "employee" then
    ({ success := false,
       error := some ("The default \x27" ++ userIdToDelete ++ "\x27 account cannot be deleted.") },
     loaded.2)
  else
    let remaining := loaded.1.filter (fun u => u.id != userIdToDelete)
    if remaining.length < loaded.1.length then
      ({ success := true, message := some "User deleted successfully." }, some remaining)
    else
      ({ success := false, error := some "User not found." }, loaded.2)

/-- `updateAdminDetails`: partial update of the first admin with that exact
id; JS `if (name)` and `if (newPassword)` skip empty strings. -/
def updateAdminDetails (adminId name : String) (newPassword : Option String) (st : UsersFile) :
    BasicResponse × UsersFile :=
  let loaded := loadUsersFromFile st
  match loaded.1.find? (fun u => u.id == adminId && u.role == Role.admin) with
  | none => ({ success := false, error := some "Admin user not found." }, loaded.2)
  | some _ =>
    let users := updateFirst (fun u => u.id == adminId && u.role == Role.admin)
      (fun u =>
        let u1 := if name ≠ "" then { u with name := name } else u
        match newPassword with
        | some p => if p ≠ "" then { u1 with password := some p } else u1
        | none => u1) loaded.1
    ({ success := true, message := some "Admin details updated successfully." }, some users)

/-- `getAllUsers`. -/
def getAllUsers (st : UsersFile) : List AuthenticatedUser × UsersFile :=
  loadUsersFromFile st

/-- `revokeOTP`: clear both OTP fields of the first matching employee. -/
def revokeOTP (userId : String) (st : UsersFile) : BasicResponse × UsersFile :=
  let loaded := loadUsersFromFile st
  match loaded.1.find? (fun u => u.id == userId && u.role == Role.employee) with
  | some user =>
    let users := updateFirst (fun u => u.id == userId && u.role == Role.employee)
      (fun u => { u with otp := none, otp_created_at := none }) loaded.1
    ({ success := true,
       message := some ("OTP for " ++ user.name ++ " has been revoked.") }, some users)
  | none =>
    ({ success := false, error := some "User not found or not an employee." }, loaded.2)

/-- Structural properties every saved rates file enjoys along program runs:
keys listed without duplicates, every id truthy, and the default keys sitting
first (the overlay in `loadRatesFromFile` seeds them first, and the merge in
`updateBoppRates` only appends new keys). -/
def ratesFileInv (l : List BoppRate) : Prop :=
  (rateKeys l).Nodup ∧ (∀ r ∈ l, r.id ≠ 0) ∧
    ∃ ext, rateKeys l = rateKeys initialDefaultRates ++ ext

/-- Rate-store states reachable from a fresh process (no data files) through
the public operations, where rates newly introduced by an `updateBoppRates`
call carry no caller-supplied id (their id is freshly generated). -/
inductive ReachableR : RateStore → Prop where
  | init : ReachableR { ratesFile := none, historyFile := none }
  | getRates {s : RateStore} : ReachableR s → ReachableR (getBoppRates s).2
  | getHistory {s : RateStore} (limit : Nat) (t0 : Int) :
      ReachableR s → ReachableR (getRateHistory limit t0 s).2
  | update {s : RateStore} (form : List BoppRate) (uid uname : String) (now t0 : Int) :
      ReachableR s →
      (∀ f ∈ form, f.key ∉ rateKeys (loadRatesFromFile s.ratesFile).1 → f.id = 0) →
      ReachableR (updateBoppRates form uid uname now t0 s)

/-- The in-memory history of an `updateBoppRates` call after the `unshift` of
the new entry and before the `slice(0, 50)` truncation on save. -/
def pendingHistory (uid uname : String) (now t0 : Int) (s : RateStore) :
    List BoppRateHistory :=
  { id := nextHistoryId (loadHistoryFromFile t0 s.historyFile).1, changed_at := now,
    changed_by_id := uid, changed_by_name := uname,
    rates_snapshot := (loadRatesFromFile s.ratesFile).1 } ::
    (loadHistoryFromFile t0 s.historyFile).1

/-- The quantity named by the specification for the generated history id: the
maximum existing history id, or `0` when the history is empty, plus nothing
(the caller adds one). -/
def maxHistoryIdOrZero : List BoppRateHistory → Int
  | [] => 0
  | e :: t => t.foldl (fun m x => max m x.id) e.id

/-- The store after seeding the defaults and then updating with a rate that
carries the explicit id `1` on the new key `"custom_rate"`. -/
def collidingIdStore : RateStore :=
  updateBoppRates [⟨1, "custom_rate", 5⟩] "u" "U" 0 0 (getBoppRates ⟨none, none⟩).2

/-- A history file already holding fifty entries. -/
def cappedHistory : List BoppRateHistory :=
  (List.range 50).map (fun i => ⟨(i : Int) + 1, 0, "x", "X", []⟩)

/-- A store whose history file sits exactly at the fifty-entry cap. -/
def cappedStore : RateStore := ⟨some initialDefaultRates, some cappedHistory⟩

/-- A small concrete store used by witnesses: default rates on file together
with a one-entry history. -/
def witnessRateStore : RateStore :=
  ⟨some initialDefaultRates, some [⟨5, 0, "a", "A", []⟩]⟩

/-- An employee whose stored OTP is the empty string: present in the record,
yet falsy to JavaScript. -/
def emptyOtpUser : AuthenticatedUser :=
  { id := "emp001", name := "Alice Smith", role := Role.employee,
    otp := some "", otp_created_at := some 0 }

/-- A users file holding only `emptyOtpUser`. -/
def usersEmptyOtp : List AuthenticatedUser := [emptyOtpUser]

/-- An employee holding a live six-digit OTP issued at time `0`. -/
def liveOtpUser : AuthenticatedUser :=
  { id := "emp001", name := "Alice Smith", role := Role.employee,
    otp := some "654321", otp_created_at := some 0 }

/-- A users file holding only `liveOtpUser`. -/
def usersLiveOtp : List AuthenticatedUser := [liveOtpUser]

/-- Mapping a function that fixes every element of a list is the identity. -/
theorem map_id_of_forall {α : Type} (l : List α) (g : α → α) (h : ∀ x ∈ l, g x = x) :
    l.map g = l := by
  induction l with
  | nil => rfl
  | cons x xs ih =>
    simp only [List.map_cons]
    rw [h x (by simp), ih (fun y hy => h y (by simp [hy]))]

/-- Pointwise equal functions map a list to equal lists. -/
theorem map_congr_mem {α β : Type} (l : List α) (f g : α → β) (h : ∀ x ∈ l, f x = g x) :
    l.map f = l.map g := by
  induction l with
  | nil => rfl
  | cons x xs ih =>
    simp only [List.map_cons]
    rw [h x (by simp), ih (fun y hy => h y (by simp [hy]))]

/-- A key-preserving transformation leaves the key list unchanged. -/
theorem rateKeys_map_of_preserve (l : List BoppRate) (g : BoppRate → BoppRate)
    (h : ∀ x ∈ l, (g x).key = x.key) : rateKeys (l.map g) = rateKeys l := by
  unfold rateKeys
  rw [List.map_map]
  exact map_congr_mem l _ _ (fun x hx => h x hx)

/-- An id-preserving transformation leaves the id list unchanged. -/
theorem rateIds_map_of_preserve (l : List BoppRate) (g : BoppRate → BoppRate)
    (h : ∀ x ∈ l, (g x).id = x.id) : rateIds (l.map g) = rateIds l := by
  unfold rateIds
  rw [List.map_map]
  exact map_congr_mem l _ _ (fun x hx => h x hx)

/-- `Map.set` on a present key is in-place replacement. -/
theorem mapSet_of_mem (l : List BoppRate) (r : BoppRate)
    (h : l.any (fun x => x.key == r.key) = true) :
    mapSet l r = l.map (fun x => if x.key == r.key then r else x) := by
  simp [mapSet, h]

/-- `Map.set` on an absent key appends. -/
theorem mapSet_of_not_mem (l : List BoppRate) (r : BoppRate)
    (h : l.any (fun x => x.key == r.key) = false) :
    mapSet l r = l ++ [r] := by
  simp [mapSet, h]

/-- If no element of `l` has key `k`, the membership test is false. -/
theorem any_key_eq_false_of_not_mem (l : List BoppRate) (k : String) (h : k ∉ rateKeys l) :
    l.any (fun x => x.key == k) = false := by
  rw [List.any_eq_false]
  intro x hx hk
  exact h (by unfold rateKeys; exact List.mem_map.mpr ⟨x, hx, by simpa using hk⟩)

/-- Conversely, a false membership test means the key is absent. -/
theorem key_not_mem_of_any_false (l : List BoppRate) (k : String)
    (h : l.any (fun x => x.key == k) = false) : k ∉ rateKeys l := by
  intro hk
  obtain ⟨x, hx, hxk⟩ := List.mem_map.mp hk
  rw [List.any_eq_false] at h
  exact h x hx (by simp [hxk])

/-- Replacement by `Map.set` does not change the key list. -/
theorem rateKeys_mapSet_of_mem (l : List BoppRate) (r : BoppRate)
    (h : l.any (fun x => x.key == r.key) = true) :
    rateKeys (mapSet l r) = rateKeys l := by
  rw [mapSet_of_mem l r h]
  apply rateKeys_map_of_preserve
  intro x _
  by_cases hk : x.key = r.key
  · simp [hk]
  · simp [hk]

/-- Every element of `mapSet l r` comes from `l` or is `r` itself. -/
theorem mem_mapSet (x : BoppRate) (l : List BoppRate) (r : BoppRate)
    (h : x ∈ mapSet l r) : x ∈ l ∨ x = r := by
  unfold mapSet at h
  by_cases hany : l.any (fun y => y.key == r.key) = true
  · rw [if_pos hany] at h
    obtain ⟨y, hy, hxy⟩ := List.mem_map.mp h
    by_cases hk : y.key = r.key
    · right
      rw [← hxy]
      simp [hk]
    · left
      rw [← hxy]
      simpa [hk] using hy
  · rw [if_neg hany] at h
    rcases List.mem_append.mp h with h1 | h1
    · exact Or.inl h1
    · exact Or.inr (by simpa using h1)

/-- `Map.set` preserves key distinctness. -/
theorem rateKeys_mapSet_nodup (l : List BoppRate) (r : BoppRate)
    (h : (rateKeys l).Nodup) : (rateKeys (mapSet l r)).Nodup := by
  cases hany : l.any (fun x => x.key == r.key) with
  | true => rw [rateKeys_mapSet_of_mem l r hany]; exact h
  | false =>
    rw [mapSet_of_not_mem l r hany]
    unfold rateKeys at h ⊢
    rw [List.map_append]
    simp only [List.map_cons, List.map_nil]
    rw [List.nodup_append]
    exact ⟨h, List.nodup_singleton _,
      by intro k hk hk2; simp at hk2; exact key_not_mem_of_any_false l r.key hany (hk2 ▸ hk)⟩

/-- `Map.set` only ever extends the key list on the right. -/
theorem rateKeys_mapSet_ext (l : List BoppRate) (r : BoppRate) :
    ∃ ext, rateKeys (mapSet l r) = rateKeys l ++ ext := by
  cases hany : l.any (fun x => x.key == r.key) with
  | true => exact ⟨[], by rw [rateKeys_mapSet_of_mem l r hany]; simp⟩
  | false =>
    refine ⟨[r.key], ?_⟩
    rw [mapSet_of_not_mem l r hany]
    unfold rateKeys
    simp

/-- Folding `Map.set` over entries whose keys match the keys of a suffix `acc`
of the map, in order, replaces that suffix elementwise and leaves the disjoint
portion `pre` alone. -/
theorem foldl_mapSet_replace :
    ∀ (xs pre acc : List BoppRate),
      rateKeys acc = rateKeys xs →
      (rateKeys xs).Nodup →
      (∀ k ∈ rateKeys pre, k ∉ rateKeys xs) →
      xs.foldl (fun a r => mapSet a r) (pre ++ acc) = pre ++ xs := by
  intro xs
  induction xs with
  | nil =>
    intro pre acc h _ _
    have hacc : acc = [] := by
      unfold rateKeys at h
      simpa using h
    subst hacc
    simp
  | cons x xs ih =>
    intro pre acc hk hnd hpre
    cases acc with
    | nil => simp [rateKeys] at hk
    | cons a acc2 =>
      unfold rateKeys at hk
      simp only [List.map_cons, List.cons.injEq] at hk
      obtain ⟨hax, hacc2⟩ := hk
      have hxnotxs : x.key ∉ rateKeys xs := by
        unfold rateKeys at hnd ⊢
        simp only [List.map_cons, List.nodup_cons] at hnd
        exact hnd.1
      have hstep : mapSet (pre ++ a :: acc2) x = pre ++ x :: acc2 := by
        have hany : (pre ++ a :: acc2).any (fun y => y.key == x.key) = true := by
          rw [List.any_eq_true]
          exact ⟨a, by simp, by simp [hax]⟩
        rw [mapSet_of_mem _ _ hany, List.map_append, List.map_cons]
        have h1 : pre.map (fun y => if y.key == x.key then x else y) = pre := by
          apply map_id_of_forall
          intro p hp
          have : p.key ≠ x.key := by
            intro he
            exact hpre p.key (List.mem_map.mpr ⟨p, hp, rfl⟩) (by unfold rateKeys; simp [he])
          simp [this]
        have h2 : (if a.key == x.key then x else a) = x := by simp [hax]
        have h3 : acc2.map (fun y => if y.key == x.key then x else y) = acc2 := by
          apply map_id_of_forall
          intro p hp
          have hne : p.key ≠ x.key := by
            intro he
            apply hxnotxs
            have hmem : p.key ∈ List.map (fun r => r.key) acc2 := List.mem_map.mpr ⟨p, hp, rfl⟩
            rw [hacc2] at hmem
            unfold rateKeys
            exact he ▸ hmem
          simp [hne]
        rw [h1, h2, h3]
      rw [List.foldl_cons, hstep]
      have hsplit : pre ++ x :: acc2 = (pre ++ [x]) ++ acc2 := by simp
      rw [hsplit, ih (pre ++ [x]) acc2 hacc2 ?nd ?pr]
      · simp
      case nd =>
        unfold rateKeys at hnd ⊢
        simp only [List.map_cons, List.nodup_cons] at hnd
        exact hnd.2
      case pr =>
        intro k hkmem
        unfold rateKeys at hkmem
        rw [List.map_append] at hkmem
        rcases List.mem_append.mp hkmem with h1 | h1
        · intro hin
          apply hpre k h1
          unfold rateKeys
          simp only [List.map_cons]
          exact List.mem_cons_of_mem _ hin
        · simp at h1
          rw [h1]
          exact hxnotxs

/-- Folding `Map.set` over entries with fresh, pairwise distinct keys appends
them in order. -/
theorem foldl_mapSet_append :
    ∀ (xs acc : List BoppRate),
      (∀ x ∈ xs, x.key ∉ rateKeys acc) → (rateKeys xs).Nodup →
      xs.foldl (fun a r => mapSet a r) acc = acc ++ xs := by
  intro xs
  induction xs with
  | nil => intro acc _ _; simp
  | cons x xs ih =>
    intro acc hfresh hnd
    have hany : acc.any (fun y => y.key == x.key) = false :=
      any_key_eq_false_of_not_mem acc x.key (hfresh x (by simp))
    rw [List.foldl_cons, mapSet_of_not_mem acc x hany]
    rw [ih (acc ++ [x]) ?fresh ?nd]
    · simp
    case fresh =>
      intro y hy
      unfold rateKeys
      rw [List.map_append]
      intro hmem
      rcases List.mem_append.mp hmem with h1 | h1
      · exact hfresh y (by simp [hy]) h1
      · simp at h1
        unfold rateKeys at hnd
        simp only [List.map_cons, List.nodup_cons] at hnd
        exact hnd.1 (h1 ▸ List.mem_map.mpr ⟨y, hy, rfl⟩)
    case nd =>
      unfold rateKeys at hnd ⊢
      simp only [List.map_cons, List.nodup_cons] at hnd
      exact hnd.2

/-- Rebuilding the working map from a key-distinct rate list is the identity. -/
theorem rebuildRatesMap_eq (l : List BoppRate) (h : (rateKeys l).Nodup) :
    rebuildRatesMap l = l := by
  unfold rebuildRatesMap
  have := foldl_mapSet_append l [] (by intro x _; simp [rateKeys]) h
  simpa using this

/-- Evaluated form of the seeded default map. -/
theorem seededDefaults_eq : seededDefaults = (initialDefaultRates, 16) := by decide

/-- When every rate in the file carries a truthy id, the overlay never assigns
ids and the rate component is a plain `Map.set` fold over the defaults. -/
theorem overlay_fst :
    ∀ (l : List BoppRate) (a : List BoppRate) (m : Int), (∀ r ∈ l, r.id ≠ 0) →
      (l.foldl overlayStep (a, m)).1 = l.foldl (fun acc r => mapSet acc r) a := by
  intro l
  induction l with
  | nil => intros; rfl
  | cons x xs ih =>
    intro a m h
    have hx : ¬ x.id = 0 := h x (by simp)
    rw [List.foldl_cons, List.foldl_cons]
    have hstep : overlayStep (a, m) x = (mapSet a x, max m x.id) := by
      unfold overlayStep
      rw [if_neg hx]
    rw [hstep]
    exact ih _ _ (fun r hr => h r (by simp [hr]))

/-- The initial segment of an `Int`-max fold bounds below. -/
theorem foldl_max_init_le (l : List Int) : ∀ a : Int, a ≤ l.foldl max a := by
  induction l with
  | nil => intro a; simp
  | cons x xs ih =>
    intro a
    rw [List.foldl_cons]
    exact le_trans (le_max_left a x) (ih (max a x))

/-- Every member of the list bounds an `Int`-max fold below. -/
theorem mem_le_foldl_max (l : List Int) : ∀ (a : Int) (x : Int), x ∈ l → x ≤ l.foldl max a := by
  induction l with
  | nil => intro a x hx; simp at hx
  | cons y ys ih =>
    intro a x hx
    rw [List.foldl_cons]
    rcases List.mem_cons.mp hx with h1 | h1
    · subst h1
      exact le_trans (le_max_right a x) (foldl_max_init_le ys (max a x))
    · exact ih (max a y) x h1

/-- `jsMaxRateId` is the max-fold of the id list. -/
theorem jsMaxRateId_eq_foldl (l : List BoppRate) :
    jsMaxRateId l = (l.map (fun r => r.id)).foldl max 0 := by
  unfold jsMaxRateId
  rw [List.foldl_map]

/-- The running maximum the merge starts from is never negative. -/
theorem jsMaxRateId_nonneg (l : List BoppRate) : 0 ≤ jsMaxRateId l := by
  rw [jsMaxRateId_eq_foldl]
  exact foldl_max_init_le _ 0

/-- The running maximum the merge starts from bounds every current id. -/
theorem le_jsMaxRateId (l : List BoppRate) : ∀ r ∈ l, r.id ≤ jsMaxRateId l := by
  intro r hr
  rw [jsMaxRateId_eq_foldl]
  exact mem_le_foldl_max _ 0 r.id (List.mem_map.mpr ⟨r, hr, rfl⟩)

/-- The overlay of an arbitrary file keeps keys distinct, keeps every id
truthy, and only extends the seeded key list on the right. -/
theorem overlay_fold_inv :
    ∀ (l : List BoppRate) (a : List BoppRate) (m : Int),
      (rateKeys a).Nodup → (∀ r ∈ a, r.id ≠ 0) → 0 ≤ m →
      ((rateKeys (l.foldl overlayStep (a, m)).1).Nodup
        ∧ (∀ r ∈ (l.foldl overlayStep (a, m)).1, r.id ≠ 0)
        ∧ (∃ ext, rateKeys (l.foldl overlayStep (a, m)).1 = rateKeys a ++ ext)) := by
  intro l
  induction l with
  | nil => intro a m h1 h2 _; exact ⟨h1, h2, [], by simp⟩
  | cons x xs ih =>
    intro a m h1 h2 h3
    rw [List.foldl_cons]
    by_cases hx : x.id = 0
    · have hstep : overlayStep (a, m) x = (mapSet a { x with id := m + 1 }, m + 1) := by
        unfold overlayStep
        rw [if_pos hx]
      rw [hstep]
      have hids : ∀ r ∈ mapSet a { x with id := m + 1 }, r.id ≠ 0 := by
        intro r hr
        rcases mem_mapSet r a _ hr with h | h
        · exact h2 r h
        · rw [h]; simp; omega
      have := ih (mapSet a { x with id := m + 1 }) (m + 1)
        (rateKeys_mapSet_nodup a _ h1) hids (by omega)
      refine ⟨this.1, this.2.1, ?_⟩
      obtain ⟨e1, he1⟩ := rateKeys_mapSet_ext a ({ x with id := m + 1 })
      obtain ⟨e2, he2⟩ := this.2.2
      exact ⟨e1 ++ e2, by rw [he2, he1, List.append_assoc]⟩
    · have hstep : overlayStep (a, m) x = (mapSet a x, max m x.id) := by
        unfold overlayStep
        rw [if_neg hx]
      rw [hstep]
      have hids : ∀ r ∈ mapSet a x, r.id ≠ 0 := by
        intro r hr
        rcases mem_mapSet r a x hr with h | h
        · exact h2 r h
        · rw [h]; exact hx
      have := ih (mapSet a x) (max m x.id)
        (rateKeys_mapSet_nodup a x h1) hids (le_trans h3 (le_max_left m x.id))
      refine ⟨this.1, this.2.1, ?_⟩
      obtain ⟨e1, he1⟩ := rateKeys_mapSet_ext a x
      obtain ⟨e2, he2⟩ := this.2.2
      exact ⟨e1 ++ e2, by rw [he2, he1, List.append_assoc]⟩

/-- The rates returned by any load satisfy the structural file invariant. -/
theorem loadRates_fileInv (st : Option (List BoppRate)) :
    ratesFileInv (loadRatesFromFile st).1 := by
  cases st with
  | none =>
    refine ⟨by decide, by decide, [], by decide⟩
  | some l =>
    have h : (loadRatesFromFile (some l)).1 = (l.foldl overlayStep (initialDefaultRates, 16)).1 := by
      unfold loadRatesFromFile overlayFileRates
      rw [seededDefaults_eq]
    rw [h]
    have := overlay_fold_inv l initialDefaultRates 16 (by decide) (by decide) (by decide)
    exact ⟨this.1, this.2.1, this.2.2⟩

/-- A file satisfying the invariant is reproduced exactly by the overlay:
its first sixteen entries replace the defaults in place and the rest append. -/
theorem overlay_eq_self (l : List BoppRate) (h : ratesFileInv l) :
    (overlayFileRates l).1 = l := by
  obtain ⟨hnd, hid, ext, hext⟩ := h
  have hstep : (overlayFileRates l).1 = l.foldl (fun acc r => mapSet acc r) initialDefaultRates := by
    unfold overlayFileRates
    rw [seededDefaults_eq]
    exact overlay_fst l initialDefaultRates 16 hid
  rw [hstep]
  have hsplit : l = l.take 16 ++ l.drop 16 := (List.take_append_drop 16 l).symm
  have hkeysA : rateKeys (l.take 16) = rateKeys initialDefaultRates := by
    unfold rateKeys at hext ⊢
    rw [List.map_take, hext]
    have hlen : (List.map (fun r => r.key) initialDefaultRates).length = 16 := by decide
    rw [← hlen, List.take_left]
  have hkeysB : rateKeys (l.drop 16) = ext := by
    unfold rateKeys at hext ⊢
    rw [List.map_drop, hext]
    have hlen : (List.map (fun r => r.key) initialDefaultRates).length = 16 := by decide
    rw [← hlen, List.drop_left]
  have hndA : (rateKeys (l.take 16)).Nodup := by
    unfold rateKeys at hnd ⊢
    rw [List.map_take]
    exact (List.take_sublist 16 _).nodup (by exact hnd)
  have hndB : (rateKeys (l.drop 16)).Nodup := by
    unfold rateKeys at hnd ⊢
    rw [List.map_drop]
    exact (List.drop_sublist 16 _).nodup (by exact hnd)
  have hdisj : ∀ x ∈ l.drop 16, x.key ∉ rateKeys (l.take 16) := by
    intro x hx
    have hnd2 : (rateKeys (l.take 16) ++ rateKeys (l.drop 16)).Nodup := by
      have hjoin : rateKeys (l.take 16) ++ rateKeys (l.drop 16) = rateKeys l := by
        unfold rateKeys
        rw [List.map_take, List.map_drop, List.take_append_drop]
      rw [hjoin]
      exact hnd
    rw [List.nodup_append] at hnd2
    intro hmem
    exact hnd2.2.2 hmem (List.mem_map.mpr ⟨x, hx, rfl⟩)
  conv_lhs => rw [hsplit]
  rw [List.foldl_append]
  have hA : (l.take 16).foldl (fun acc r => mapSet acc r) initialDefaultRates = l.take 16 := by
    have := foldl_mapSet_replace (l.take 16) [] initialDefaultRates hkeysA.symm hndA
      (by intro k hk; simp [rateKeys] at hk)
    simpa using this
  rw [hA]
  have hB := foldl_mapSet_append (l.drop 16) (l.take 16) hdisj hndB
  rw [hB, List.take_append_drop]

/-- The value-overwrite pass of the merge fixes every key. -/
theorem mergeOverwrite_keys (a : List BoppRate) (f : BoppRate) :
    rateKeys (a.map (fun x => if x.key == f.key then { x with value := f.value } else x)) =
      rateKeys a := by
  apply rateKeys_map_of_preserve
  intro x _
  by_cases hk : x.key = f.key
  · simp [hk]
  · simp [hk]

/-- The value-overwrite pass of the merge fixes every id. -/
theorem mergeOverwrite_ids (a : List BoppRate) (f : BoppRate) :
    rateIds (a.map (fun x => if x.key == f.key then { x with value := f.value } else x)) =
      rateIds a := by
  apply rateIds_map_of_preserve
  intro x _
  by_cases hk : x.key = f.key
  · simp [hk]
  · simp [hk]

/-- The merge of an arbitrary form keeps keys distinct, keeps ids truthy, only
appends new keys, and keeps the running max non-negative. -/
theorem merge_fold_basic :
    ∀ (form : List BoppRate) (a : List BoppRate) (m : Int),
      (rateKeys a).Nodup → (∀ r ∈ a, r.id ≠ 0) → 0 ≤ m →
      ((rateKeys (form.foldl mergeStep (a, m)).1).Nodup
        ∧ (∀ r ∈ (form.foldl mergeStep (a, m)).1, r.id ≠ 0)
        ∧ (∃ ext, rateKeys (form.foldl mergeStep (a, m)).1 = rateKeys a ++ ext)
        ∧ 0 ≤ (form.foldl mergeStep (a, m)).2) := by
  intro form
  induction form with
  | nil => intro a m h1 h2 h3; exact ⟨h1, h2, ⟨[], by simp⟩, h3⟩
  | cons f fs ih =>
    intro a m h1 h2 h3
    rw [List.foldl_cons]
    cases hany : a.any (fun x => x.key == f.key) with
    | true =>
      have hstep : mergeStep (a, m) f =
          (a.map (fun x => if x.key == f.key then { x with value := f.value } else x), m) := by
        unfold mergeStep
        rw [if_pos hany]
      rw [hstep]
      have hk : (rateKeys (a.map (fun x => if x.key == f.key then { x with value := f.value } else x))).Nodup := by
        rw [mergeOverwrite_keys]; exact h1
      have hi : ∀ r ∈ a.map (fun x => if x.key == f.key then { x with value := f.value } else x), r.id ≠ 0 := by
        intro r hr
        obtain ⟨y, hy, hxy⟩ := List.mem_map.mp hr
        have : r.id = y.id := by
          rw [← hxy]
          by_cases hyk : y.key = f.key
          · simp [hyk]
          · simp [hyk]
        rw [this]
        exact h2 y hy
      have := ih _ m hk hi h3
      refine ⟨this.1, this.2.1, ?_, this.2.2.2⟩
      obtain ⟨e2, he2⟩ := this.2.2.1
      rw [mergeOverwrite_keys] at he2
      exact ⟨e2, he2⟩
    | false =>
      have hfresh : f.key ∉ rateKeys a := key_not_mem_of_any_false a f.key hany
      have hknew : ∀ (r : BoppRate), (rateKeys (a ++ [r])).Nodup → True := fun _ _ => trivial
      by_cases hid : f.id = 0
      · have hstep : mergeStep (a, m) f =
            (a ++ [{ id := m + 1, key := f.key, value := f.value }], m + 1) := by
          unfold mergeStep
          rw [if_neg (by simp [hany]), if_neg (by simp [hid])]
        rw [hstep]
        have hk : (rateKeys (a ++ [({ id := m + 1, key := f.key, value := f.value } : BoppRate)])).Nodup := by
          unfold rateKeys at h1 hfresh ⊢
          rw [List.map_append]
          rw [List.nodup_append]
          exact ⟨h1, by simp, by intro k hk1 hk2; simp at hk2; exact hfresh (hk2 ▸ hk1)⟩
        have hi : ∀ r ∈ a ++ [({ id := m + 1, key := f.key, value := f.value } : BoppRate)], r.id ≠ 0 := by
          intro r hr
          rcases List.mem_append.mp hr with hr1 | hr1
          · exact h2 r hr1
          · simp at hr1
            rw [hr1]
            simp
            omega
        have := ih _ (m + 1) hk hi (by omega)
        refine ⟨this.1, this.2.1, ?_, this.2.2.2⟩
        obtain ⟨e2, he2⟩ := this.2.2.1
        refine ⟨f.key :: e2, ?_⟩
        rw [he2]
        unfold rateKeys
        rw [List.map_append]
        simp
      · have hstep : mergeStep (a, m) f =
            (a ++ [{ id := f.id, key := f.key, value := f.value }], m) := by
          unfold mergeStep
          rw [if_neg (by simp [hany]), if_pos hid]
        rw [hstep]
        have hk : (rateKeys (a ++ [({ id := f.id, key := f.key, value := f.value } : BoppRate)])).Nodup := by
          unfold rateKeys at h1 hfresh ⊢
          rw [List.map_append]
          rw [List.nodup_append]
          exact ⟨h1, by simp, by intro k hk1 hk2; simp at hk2; exact hfresh (hk2 ▸ hk1)⟩
        have hi : ∀ r ∈ a ++ [({ id := f.id, key := f.key, value := f.value } : BoppRate)], r.id ≠ 0 := by
          intro r hr
          rcases List.mem_append.mp hr with hr1 | hr1
          · exact h2 r hr1
          · simp at hr1
            rw [hr1]
            simpa using hid
        have := ih _ m hk hi h3
        refine ⟨this.1, this.2.1, ?_, this.2.2.2⟩
        obtain ⟨e2, he2⟩ := this.2.2.1
        refine ⟨f.key :: e2, ?_⟩
        rw [he2]
        unfold rateKeys
        rw [List.map_append]
        simp

/-- When no form rate introducing a new key carries an id, the merge keeps the
id list duplicate-free and keeps every id bounded by the running maximum. -/
theorem merge_fold_ids :
    ∀ (form : List BoppRate) (a : List BoppRate) (m : Int),
      (rateKeys a).Nodup → (rateIds a).Nodup → (∀ r ∈ a, r.id ≤ m) →
      (∀ f ∈ form, f.key ∉ rateKeys a → f.id = 0) →
      ((rateIds (form.foldl mergeStep (a, m)).1).Nodup
        ∧ (∀ r ∈ (form.foldl mergeStep (a, m)).1, r.id ≤ (form.foldl mergeStep (a, m)).2)) := by
  intro form
  induction form with
  | nil => intro a m _ h2 h3 _; exact ⟨h2, h3⟩
  | cons f fs ih =>
    intro a m hk hn hb hres
    rw [List.foldl_cons]
    cases hany : a.any (fun x => x.key == f.key) with
    | true =>
      have hstep : mergeStep (a, m) f =
          (a.map (fun x => if x.key == f.key then { x with value := f.value } else x), m) := by
        unfold mergeStep
        rw [if_pos hany]
      rw [hstep]
      apply ih
      · rw [mergeOverwrite_keys]; exact hk
      · rw [mergeOverwrite_ids]; exact hn
      · intro r hr
        obtain ⟨y, hy, hxy⟩ := List.mem_map.mp hr
        have hpres : r.id = y.id := by
          rw [← hxy]
          by_cases hyk : y.key = f.key
          · simp [hyk]
          · simp [hyk]
        rw [hpres]
        exact hb y hy
      · intro g hg hgk
        rw [mergeOverwrite_keys] at hgk
        exact hres g (by simp [hg]) hgk
    | false =>
      have hfresh : f.key ∉ rateKeys a := key_not_mem_of_any_false a f.key hany
      have hid : f.id = 0 := hres f (by simp) hfresh
      have hstep : mergeStep (a, m) f =
          (a ++ [{ id := m + 1, key := f.key, value := f.value }], m + 1) := by
        unfold mergeStep
        rw [if_neg (by simp [hany]), if_neg (by simp [hid])]
      rw [hstep]
      apply ih
      · unfold rateKeys at hk hfresh ⊢
        rw [List.map_append]
        rw [List.nodup_append]
        exact ⟨hk, by simp, by intro k hk1 hk2; simp at hk2; exact hfresh (hk2 ▸ hk1)⟩
      · unfold rateIds at hn ⊢
        rw [List.map_append]
        rw [List.nodup_append]
        refine ⟨hn, by simp, ?_⟩
        intro i hi1 hi2
        simp at hi2
        obtain ⟨y, hy, hyi⟩ := List.mem_map.mp hi1
        have : y.id ≤ m := hb y hy
        omega
      · intro r hr
        rcases List.mem_append.mp hr with hr1 | hr1
        · have := hb r hr1; omega
        · simp at hr1; rw [hr1]
      · intro g hg hgk
        unfold rateKeys at hgk
        rw [List.map_append] at hgk
        apply hres g (by simp [hg])
        intro hmem
        exact hgk (List.mem_append.mpr (Or.inl hmem))

/-- The merge of any form preserves the structural rates-file invariant. -/
theorem mergeRates_fileInv (current form : List BoppRate) (h : ratesFileInv current) :
    ratesFileInv (mergeRates current form) := by
  obtain ⟨h1, h2, ext, hext⟩ := h
  unfold mergeRates
  rw [rebuildRatesMap_eq current h1]
  have hb := merge_fold_basic form current (jsMaxRateId current) h1 h2 (jsMaxRateId_nonneg current)
  refine ⟨hb.1, hb.2.1, ?_⟩
  obtain ⟨e2, he2⟩ := hb.2.2.1
  exact ⟨ext ++ e2, by rw [he2, hext, List.append_assoc]⟩

/-- With fresh ids generated for every new key, the merge keeps ids
duplicate-free. -/
theorem mergeRates_ids_nodup (current form : List BoppRate) (h : ratesFileInv current)
    (hn : (rateIds current).Nodup)
    (hres : ∀ f ∈ form, f.key ∉ rateKeys current → f.id = 0) :
    (rateIds (mergeRates current form)).Nodup := by
  obtain ⟨h1, _, _⟩ := h
  unfold mergeRates
  rw [rebuildRatesMap_eq current h1]
  exact (merge_fold_ids form current (jsMaxRateId current) h1 hn
    (le_jsMaxRateId current) hres).1

/-- Along restricted reachable runs, the persisted rates file always satisfies
the structural invariant and carries duplicate-free ids. -/
theorem reachable_ratesFile_inv (s : RateStore) (h : ReachableR s) :
    ∀ l, s.ratesFile = some l → ratesFileInv l ∧ (rateIds l).Nodup := by
  induction h with
  | init => intro l hl; simp at hl
  | @getRates s _ ih =>
    intro l hl
    cases hfile : s.ratesFile with
    | none =>
      unfold getBoppRates at hl
      simp only [hfile] at hl
      unfold loadRatesFromFile at hl
      simp at hl
      subst hl
      exact ⟨⟨by decide, by decide, [], by decide⟩, by decide⟩
    | some l0 =>
      unfold getBoppRates at hl
      simp only [hfile] at hl
      unfold loadRatesFromFile at hl
      simp at hl
      subst hl
      exact ih l0 hfile
  | @getHistory s limit t0 _ ih =>
    intro l hl
    unfold getRateHistory at hl
    exact ih l hl
  | @update s form uid uname now t0 _ hres ih =>
    intro l hl
    unfold updateBoppRates at hl
    simp at hl
    have hcur : ratesFileInv (loadRatesFromFile s.ratesFile).1 ∧
        (rateIds (loadRatesFromFile s.ratesFile).1).Nodup := by
      cases hfile : s.ratesFile with
      | none =>
        unfold loadRatesFromFile
        exact ⟨⟨by decide, by decide, [], by decide⟩, by decide⟩
      | some l0 =>
        have hinv := ih l0 hfile
        have heq : (loadRatesFromFile (some l0)).1 = l0 := overlay_eq_self l0 hinv.1
        rw [heq]
        exact hinv
    subst hl
    exact ⟨mergeRates_fileInv _ form hcur.1,
      mergeRates_ids_nodup _ form hcur.1 hcur.2 hres⟩

/-- A key-preserving transformation does not change per-key counts. -/
theorem countP_key_map_of_preserve (l : List BoppRate) (g : BoppRate → BoppRate) (k : String)
    (h : ∀ x ∈ l, (g x).key = x.key) :
    (l.map g).countP (fun x => x.key == k) = l.countP (fun x => x.key == k) := by
  induction l with
  | nil => rfl
  | cons x xs ih =>
    simp only [List.map_cons]
    rw [List.countP_cons, List.countP_cons, ih (fun y hy => h y (by simp [hy]))]
    have hx := h x (by simp)
    congr 1
    simp [hx]

/-- In a key-distinct list a present key is counted exactly once. -/
theorem countP_key_eq_one (l : List BoppRate) (k : String)
    (hn : (rateKeys l).Nodup) (hm : k ∈ rateKeys l) :
    l.countP (fun x => x.key == k) = 1 := by
  induction l with
  | nil => simp [rateKeys] at hm
  | cons x xs ih =>
    unfold rateKeys at hn hm
    simp only [List.map_cons, List.nodup_cons] at hn
    simp only [List.map_cons] at hm
    rcases List.mem_cons.mp hm with h1 | h1
    · rw [List.countP_cons]
      have hz : xs.countP (fun y => y.key == k) = 0 := by
        rw [List.countP_eq_zero]
        intro y hy hyk
        apply hn.1
        have : y.key = k := by simpa using hyk
        rw [← h1, ← this]
        exact List.mem_map.mpr ⟨y, hy, rfl⟩
      rw [hz]
      simp [h1.symm]
    · rw [List.countP_cons]
      have hxk : ¬ x.key = k := by
        intro he
        exact hn.1 (he ▸ h1)
      have := ih hn.2 h1
      simp [hxk, this]

/-- Reloading a merged file returns it unchanged. -/
theorem loadRates_merge_roundtrip (current form : List BoppRate) (h : ratesFileInv current) :
    (loadRatesFromFile (some (mergeRates current form))).1 = mergeRates current form := by
  have hinv := mergeRates_fileInv current form h
  show (overlayFileRates (mergeRates current form)).1 = _
  exact overlay_eq_self _ hinv

/-- A single-rate merge on a present key is the pure value overwrite. -/
theorem mergeRates_single_overwrite (current : List BoppRate) (r : BoppRate)
    (hk : (rateKeys current).Nodup)
    (hmem : current.any (fun x => x.key == r.key) = true) :
    mergeRates current [r] =
      current.map (fun x => if x.key == r.key then { x with value := r.value } else x) := by
  unfold mergeRates
  rw [rebuildRatesMap_eq current hk, List.foldl_cons, List.foldl_nil]
  unfold mergeStep
  rw [if_pos hmem]

/-- A single-rate merge on an absent key appends exactly one rate, carrying
the supplied id when truthy and a freshly generated one otherwise. -/
theorem mergeRates_single_insert (current : List BoppRate) (r : BoppRate)
    (hk : (rateKeys current).Nodup)
    (hmem : current.any (fun x => x.key == r.key) = false) :
    mergeRates current [r] =
      current ++ [{ id := if r.id ≠ 0 then r.id else jsMaxRateId current + 1,
                    key := r.key, value := r.value }] := by
  unfold mergeRates
  rw [rebuildRatesMap_eq current hk, List.foldl_cons, List.foldl_nil]
  unfold mergeStep
  by_cases hid : r.id = 0
  · rw [if_neg (by simp [hmem]), if_neg (by simp [hid]), if_neg (by simp [hid])]
  · rw [if_neg (by simp [hmem]), if_pos hid, if_pos hid]

/-- A true membership test yields a member of the key list. -/
theorem key_mem_of_any_true (l : List BoppRate) (k : String)
    (h : l.any (fun x => x.key == k) = true) : k ∈ rateKeys l := by
  obtain ⟨x, hx, hxk⟩ := List.any_eq_true.mp h
  have : x.key = k := by simpa using hxk
  exact this ▸ List.mem_map.mpr ⟨x, hx, rfl⟩

/-- When every loaded history id is non-negative, the id generated by
`updateBoppRates` is exactly the claim's "max existing id (or `0` if none)
plus one". -/
theorem nextHistoryId_eq_spec (h : List BoppRateHistory) (hnn : ∀ e ∈ h, 0 ≤ e.id) :
    nextHistoryId h = maxHistoryIdOrZero h + 1 := by
  cases h with
  | nil => rfl
  | cons e t =>
    have hlen : (e :: t).length > 0 := by simp
    unfold nextHistoryId jsMaxHistoryId maxHistoryIdOrZero
    rw [if_pos hlen, List.foldl_cons]
    have hmax : max (0 : Int) e.id = e.id := max_eq_right (hnn e (by simp))
    rw [hmax]

/-- Reading the history of a store whose history file exists returns its first
`limit` entries and leaves the whole store untouched. -/
theorem getRateHistory_some (limit : Nat) (t0 : Int) (s : RateStore)
    (h : List BoppRateHistory) (hh : s.historyFile = some h) :
    (getRateHistory limit t0 s).1 = h.take limit ∧ (getRateHistory limit t0 s).2 = s := by
  cases s with
  | mk rf hf =>
    simp only at hh
    subst hh
    exact ⟨rfl, rfl⟩

/-- Claim C2: the history entry prepended by `updateBoppRates` — returned by
`getRateHistory 1` right afterwards — snapshots the rate set as loaded before
the merge was applied, sits newest-first, and (whenever the loaded history
carries no negative ids, as every reachable history does) its id is the
maximum existing history id (or `0` if the history is empty) plus one. -/
theorem updateRates_history_snapshot (form : List BoppRate) (uid uname : String)
    (now t0 : Int) (s : RateStore)
    (hids : ∀ e ∈ (loadHistoryFromFile t0 s.historyFile).1, 0 ≤ e.id) :
    (getRateHistory 1 t0 (updateBoppRates form uid uname now t0 s)).1 =
      [{ id := maxHistoryIdOrZero (loadHistoryFromFile t0 s.historyFile).1 + 1,
         changed_at := now, changed_by_id := uid, changed_by_name := uname,
         rates_snapshot := (loadRatesFromFile s.ratesFile).1 }] := by
  have hup : (updateBoppRates form uid uname now t0 s).historyFile =
      some ((pendingHistory uid uname now t0 s).take 50) := rfl
  obtain ⟨h1, _⟩ := getRateHistory_some 1 t0 _ _ hup
  rw [h1, List.take_take]
  have hmin : min 1 50 = 1 := rfl
  rw [hmin]
  unfold pendingHistory
  rw [List.take_cons (by decide : 0 < 1), List.take_zero]
  rw [nextHistoryId_eq_spec _ hids]

/-- Witness for C2 at a concrete store: the single returned entry carries
id 6 (= 5 + 1) and snapshots the default rate set. -/
theorem updateRates_history_snapshot_witness :
    (getRateHistory 1 0 (updateBoppRates [] "u1" "U" 7 0 witnessRateStore)).1 =
      [{ id := 6, changed_at := 7, changed_by_id := "u1", changed_by_name := "U",
         rates_snapshot := initialDefaultRates }] := by
  have h := updateRates_history_snapshot [] "u1" "U" 7 0 witnessRateStore (by decide)
  exact h.trans (by decide)

/-- Claim C4: every `updateBoppRates` call persists exactly the first fifty
entries of the prepended history, so the saved history never exceeds fifty
entries and any entries dropped are the trailing — oldest — ones of the
newest-first list. -/
theorem updateRates_history_capped (form : List BoppRate) (uid uname : String)
    (now t0 : Int) (s : RateStore) :
    ((updateBoppRates form uid uname now t0 s).historyFile =
        some ((pendingHistory uid uname now t0 s).take 50))
    ∧ ((pendingHistory uid uname now t0 s).take 50).length ≤ 50
    ∧ ((pendingHistory uid uname now t0 s).take 50) ++
        (pendingHistory uid uname now t0 s).drop 50 =
        pendingHistory uid uname now t0 s := by
  refine ⟨rfl, ?_, List.take_append_drop 50 _⟩
  simp [List.length_take_le]

/-- Claim C10 (amended): `updateBoppRates` with an empty form still prepends a
fresh history entry snapshotting the unchanged rate set, saves the rate set
exactly as loaded (every id, key and value unchanged), and the persisted
history length becomes `min (previous + 1) 50` — it grows by one strictly
below the fifty-entry cap and stays at fifty once there. -/
theorem updateRates_empty_form (uid uname : String) (now t0 : Int) (s : RateStore) :
    (updateBoppRates [] uid uname now t0 s).ratesFile =
        some (loadRatesFromFile s.ratesFile).1
    ∧ (updateBoppRates [] uid uname now t0 s).historyFile =
        some ((pendingHistory uid uname now t0 s).take 50)
    ∧ (loadHistoryFromFile t0 (updateBoppRates [] uid uname now t0 s).historyFile).1.length =
        min ((loadHistoryFromFile t0 s.historyFile).1.length + 1) 50 := by
  refine ⟨?_, rfl, ?_⟩
  · show some (mergeRates (loadRatesFromFile s.ratesFile).1 []) = _
    have hmer : mergeRates (loadRatesFromFile s.ratesFile).1 [] =
        rebuildRatesMap (loadRatesFromFile s.ratesFile).1 := rfl
    rw [hmer, rebuildRatesMap_eq _ (loadRates_fileInv s.ratesFile).1]
  · show ((pendingHistory uid uname now t0 s).take 50).length = _
    rw [List.length_take]
    have hlen : (pendingHistory uid uname now t0 s).length =
        (loadHistoryFromFile t0 s.historyFile).1.length + 1 := rfl
    rw [hlen]
    omega

/-- Counterexample to C10 as frozen: at a store whose history already holds
fifty entries, an empty update leaves the history length at fifty — it does
not grow by one. -/
theorem updateRates_history_growth_counterexample :
    (loadHistoryFromFile 0 (updateBoppRates [] "u" "U" 0 0 cappedStore).historyFile).1.length = 50
    ∧ (loadHistoryFromFile 0 cappedStore.historyFile).1.length = 50 := by
  constructor
  · decide
  · decide

/-- Claim C3 (amended): along every run of the public operations in which any
rate introducing a new key carries no caller-supplied id, the rate set
returned by `getBoppRates` never contains two rates with the same id —
freshly generated ids never reuse an existing id. -/
theorem rate_ids_unique_of_reachable (s : RateStore) (h : ReachableR s) :
    (rateIds (getBoppRates s).1).Nodup := by
  cases hfile : s.ratesFile with
  | none =>
    unfold getBoppRates
    simp only [hfile]
    decide
  | some l =>
    have hinv := reachable_ratesFile_inv s h l hfile
    unfold getBoppRates
    simp only [hfile]
    have heq : (loadRatesFromFile (some l)).1 = l := overlay_eq_self l hinv.1
    simp only [heq]
    exact hinv.2

/-- Witness for C3 at the freshly seeded store. -/
theorem rate_ids_unique_witness :
    (rateIds (getBoppRates { ratesFile := none, historyFile := none }).1).Nodup :=
  rate_ids_unique_of_reachable { ratesFile := none, historyFile := none } ReachableR.init

/-- Counterexample to C3 as frozen: seeding the defaults and then calling
`updateBoppRates` with the new key `"custom_rate"` and the caller-supplied id
`1` yields a rate set in which id `1` occurs twice. -/
theorem rate_ids_collision_counterexample :
    ¬ (rateIds (getBoppRates collidingIdStore).1).Nodup := by decide

/-- Claim C5: for an incoming rate whose key already exists in the loaded rate
set, `updateBoppRates` overwrites only that rate's value, preserving every id
and key; for a new key it appends exactly one rate carrying the supplied id
(when truthy) or a freshly generated one; and updating again with the same key
leaves exactly one rate with that key — no duplicate is created. -/
theorem updateRates_merge_semantics (r : BoppRate) (uid uname : String) (now t0 : Int)
    (s : RateStore) :
    ((∃ u ∈ (loadRatesFromFile s.ratesFile).1, u.key = r.key) →
      (updateBoppRates [r] uid uname now t0 s).ratesFile =
        some ((loadRatesFromFile s.ratesFile).1.map
          (fun x => if x.key == r.key then { x with value := r.value } else x)))
    ∧ ((∀ u ∈ (loadRatesFromFile s.ratesFile).1, u.key ≠ r.key) →
      (updateBoppRates [r] uid uname now t0 s).ratesFile =
        some ((loadRatesFromFile s.ratesFile).1 ++
          [{ id := if r.id ≠ 0 then r.id
                   else jsMaxRateId (loadRatesFromFile s.ratesFile).1 + 1,
             key := r.key, value := r.value }]))
    ∧ (∀ r2 : BoppRate, r2.key = r.key →
      ((loadRatesFromFile (updateBoppRates [r2] uid uname now t0
          (updateBoppRates [r] uid uname now t0 s)).ratesFile).1.countP
        (fun x => x.key == r.key)) = 1) := by
  have hinv := loadRates_fileInv s.ratesFile
  have hk := hinv.1
  refine ⟨?over, ?ins, ?dup⟩
  case over =>
    intro hmem
    have hany : (loadRatesFromFile s.ratesFile).1.any (fun x => x.key == r.key) = true := by
      rw [List.any_eq_true]
      obtain ⟨u, hu, huk⟩ := hmem
      exact ⟨u, hu, by simp [huk]⟩
    show some (mergeRates (loadRatesFromFile s.ratesFile).1 [r]) = _
    rw [mergeRates_single_overwrite _ r hk hany]
  case ins =>
    intro hfresh
    have hany : (loadRatesFromFile s.ratesFile).1.any (fun x => x.key == r.key) = false := by
      rw [List.any_eq_false]
      intro u hu
      simp [hfresh u hu]
    show some (mergeRates (loadRatesFromFile s.ratesFile).1 [r]) = _
    rw [mergeRates_single_insert _ r hk hany]
  case dup =>
    intro r2 hr2
    have hstate1 : (updateBoppRates [r] uid uname now t0 s).ratesFile =
        some (mergeRates (loadRatesFromFile s.ratesFile).1 [r]) := rfl
    have hm1inv : ratesFileInv (mergeRates (loadRatesFromFile s.ratesFile).1 [r]) :=
      mergeRates_fileInv _ [r] hinv
    have hload1 : (loadRatesFromFile (updateBoppRates [r] uid uname now t0 s).ratesFile).1 =
        mergeRates (loadRatesFromFile s.ratesFile).1 [r] := by
      rw [hstate1]
      exact loadRates_merge_roundtrip _ [r] hinv
    have hstate2 : (updateBoppRates [r2] uid uname now t0
        (updateBoppRates [r] uid uname now t0 s)).ratesFile =
        some (mergeRates
          (loadRatesFromFile (updateBoppRates [r] uid uname now t0 s).ratesFile).1 [r2]) := rfl
    rw [hstate2, hload1]
    have hcount1 : (mergeRates (loadRatesFromFile s.ratesFile).1 [r]).countP
        (fun x => x.key == r.key) = 1 := by
      cases hany : (loadRatesFromFile s.ratesFile).1.any (fun x => x.key == r.key) with
      | true =>
        rw [mergeRates_single_overwrite _ r hk hany]
        rw [countP_key_map_of_preserve]
        · exact countP_key_eq_one _ r.key hk (key_mem_of_any_true _ r.key hany)
        · intro x _
          by_cases hxk : x.key = r.key
          · simp [hxk]
          · simp [hxk]
      | false =>
        rw [mergeRates_single_insert _ r hk hany]
        rw [List.countP_append]
        have hz : (loadRatesFromFile s.ratesFile).1.countP (fun x => x.key == r.key) = 0 := by
          rw [List.countP_eq_zero]
          intro u hu hup
          exact key_not_mem_of_any_false _ r.key hany
            ((by simpa using hup : u.key = r.key) ▸ List.mem_map.mpr ⟨u, hu, rfl⟩)
        rw [hz]
        simp
    have hmem2 : (mergeRates (loadRatesFromFile s.ratesFile).1 [r]).any
        (fun x => x.key == r2.key) = true := by
      rw [hr2, List.any_eq_true]
      have hpos : 0 < (mergeRates (loadRatesFromFile s.ratesFile).1 [r]).countP
          (fun x => x.key == r.key) := by rw [hcount1]; decide
      obtain ⟨x, hx, hxk⟩ := List.countP_pos_iff.mp hpos
      exact ⟨x, hx, hxk⟩
    rw [loadRates_merge_roundtrip _ [r2] hm1inv]
    rw [mergeRates_single_overwrite _ r2 hm1inv.1 hmem2]
    rw [countP_key_map_of_preserve]
    · exact hcount1
    · intro x _
      by_cases hxk : x.key = r2.key
      · simp [hxk]
      · simp [hxk]

/-- Witness for C5: overwriting the existing key `"profit"` with value 15 on
the default store changes only that value, and repeating the update leaves a
single `"profit"` rate. -/
theorem updateRates_merge_semantics_witness :
    (updateBoppRates [⟨0, "profit", 15⟩] "u" "U" 0 0 witnessRateStore).ratesFile =
      some ((loadRatesFromFile witnessRateStore.ratesFile).1.map
        (fun x => if x.key == "profit" then { x with value := 15 } else x))
    ∧ ((loadRatesFromFile (updateBoppRates [⟨0, "profit", 15⟩] "u" "U" 0 0
        (updateBoppRates [⟨0, "profit", 15⟩] "u" "U" 0 0 witnessRateStore)).ratesFile).1.countP
        (fun x => x.key == "profit")) = 1 := by
  have h := updateRates_merge_semantics ⟨0, "profit", 15⟩ "u" "U" 0 0 witnessRateStore
  exact ⟨h.1 (by decide), h.2.2 ⟨0, "profit", 15⟩ rfl⟩

/-- Claim C8 (amended): whenever the history file exists, `getRateHistory`
returns its newest `limit` entries and leaves the whole store — rates file and
history file — exactly as it was.  (When the history file is missing, the load
seeds the default history, a write-on-first-read; see the counterexample.) -/
theorem getRateHistory_pure_of_file (limit : Nat) (t0 : Int) (s : RateStore)
    (h : List BoppRateHistory) (hh : s.historyFile = some h) :
    (getRateHistory limit t0 s).1 = h.take limit ∧ (getRateHistory limit t0 s).2 = s :=
  getRateHistory_some limit t0 s h hh

/-- Witness for C8 at a concrete store with a one-entry history. -/
theorem getRateHistory_pure_witness :
    (getRateHistory 1 0 witnessRateStore).1 = [⟨5, 0, "a", "A", []⟩]
    ∧ (getRateHistory 1 0 witnessRateStore).2 = witnessRateStore := by
  have h := getRateHistory_pure_of_file 1 0 witnessRateStore [⟨5, 0, "a", "A", []⟩] rfl
  exact ⟨h.1.trans (by decide), h.2⟩

/-- Counterexample to C8 as frozen: on a store whose history file does not yet
exist, `getRateHistory` writes the seeded default history through, so storage
is not identical before and after the call. -/
theorem getRateHistory_mutates_counterexample :
    (getRateHistory 5 0 { ratesFile := some initialDefaultRates, historyFile := none }).2 ≠
      { ratesFile := some initialDefaultRates, historyFile := none } := by decide

/-- Claim C1 (amended): `verifyOtp` succeeds exactly when an employee with
that exact id is found, a non-empty OTP and its creation time are stored, at
most 300000 ms have elapsed, and the submitted code string-equals the stored
one; in particular with a non-empty stored code, at elapsed 299999 ms or
exactly 300000 ms a correct code succeeds, while at 300001 ms verification
fails with the expiry error no matter what code is submitted.  (Non-empty is
required because JavaScript treats an empty stored OTP as falsy; see the
counterexample.) -/
theorem verifyOtp_characterization (now : Int) (users : List AuthenticatedUser)
    (userId code : String) :
    (((verifyOtp userId code now (some users)).1.success = true) ↔
      (∃ u, users.find? (fun v => v.id == userId && v.role == Role.employee) = some u ∧
        ∃ c t, u.otp = some c ∧ c ≠ "" ∧ u.otp_created_at = some t ∧
          now - t ≤ 300000 ∧ code = c))
    ∧ (∀ u c t, users.find? (fun v => v.id == userId && v.role == Role.employee) = some u →
        u.otp = some c → c ≠ "" → u.otp_created_at = some t →
        ((now - t = 300001 →
            (verifyOtp userId code now (some users)).1.error =
              some "OTP has expired. Please generate a new one.")
          ∧ ((now - t = 299999 ∨ now - t = 300000) → code = c →
            (verifyOtp userId code now (some users)).1.success = true))) := by
  unfold verifyOtp
  simp only [loadUsersFromFile]
  cases hfind : users.find? (fun v => v.id == userId && v.role == Role.employee) with
  | none =>
    constructor
    · simp
    · intro u c t hu
      simp at hu
  | some u =>
    rcases hotp : u.otp with _ | c0 <;> rcases hca : u.otp_created_at with _ | t0 <;>
      simp only [hotp, hca]
    case none.none =>
      constructor
      · constructor
        · intro hs
          simp at hs
        · rintro ⟨u1, hu, c, t, hc, hne, ht, hle, hcq⟩
          injection hu with hu1
          subst hu1
          rw [hotp] at hc
          cases hc
      · intro u1 c t hu hc hne ht
        injection hu with hu1
        subst hu1
        rw [hotp] at hc
        cases hc
    case none.some =>
      constructor
      · constructor
        · intro hs
          simp at hs
        · rintro ⟨u1, hu, c, t, hc, hne, ht, hle, hcq⟩
          injection hu with hu1
          subst hu1
          rw [hotp] at hc
          cases hc
      · intro u1 c t hu hc hne ht
        injection hu with hu1
        subst hu1
        rw [hotp] at hc
        cases hc
    case some.none =>
      constructor
      · constructor
        · intro hs
          simp at hs
        · rintro ⟨u1, hu, c, t, hc, hne, ht, hle, hcq⟩
          injection hu with hu1
          subst hu1
          rw [hca] at ht
          cases ht
      · intro u1 c t hu hc hne ht
        injection hu with hu1
        subst hu1
        rw [hca] at ht
        cases ht
    case some.some =>
      by_cases hc0 : c0 = ""
      · rw [if_pos hc0]
        constructor
        · constructor
          · intro hs
            simp at hs
          · rintro ⟨u1, hu, c, t, hc, hne, ht, hle, hcq⟩
            injection hu with hu1
            subst hu1
            rw [hotp] at hc
            injection hc with hcc
            exact absurd (hcc ▸ hc0) hne
        · intro u1 c t hu hc hne ht
          injection hu with hu1
          subst hu1
          rw [hotp] at hc
          injection hc with hcc
          exact absurd (hcc ▸ hc0) hne
      · rw [if_neg hc0]
        by_cases hexp : now - t0 > 5 * 60 * 1000
        · rw [if_pos hexp]
          constructor
          · constructor
            · intro hs
              simp at hs
            · rintro ⟨u1, hu, c, t, hc, hne, ht, hle, hcq⟩
              injection hu with hu1
              subst hu1
              rw [hca] at ht
              injection ht with htt
              exfalso
              omega
          · intro u1 c t hu hc hne ht
            injection hu with hu1
            subst hu1
            rw [hca] at ht
            injection ht with htt
            constructor
            · intro _
              rfl
            · intro hint _
              exfalso
              omega
        · rw [if_neg hexp]
          by_cases hcode : code = c0
          · rw [if_pos hcode]
            constructor
            · constructor
              · intro _
                exact ⟨u, rfl, c0, t0, hotp, hc0, hca, by omega, hcode⟩
              · intro _
                rfl
            · intro u1 c t hu hc hne ht
              injection hu with hu1
              subst hu1
              rw [hca] at ht
              injection ht with htt
              constructor
              · intro h301
                exfalso
                omega
              · intro _ _
                rfl
          · rw [if_neg hcode]
            constructor
            · constructor
              · intro hs
                simp at hs
              · rintro ⟨u1, hu, c, t, hc, hne, ht, hle, hcq⟩
                injection hu with hu1
                subst hu1
                rw [hotp] at hc
                injection hc with hcc
                apply absurd hcq
                intro hcq2
                apply hcode
                rw [hcc]
                exact hcq2
            · intro u1 c t hu hc hne ht
              injection hu with hu1
              subst hu1
              rw [hca] at ht
              injection ht with htt
              rw [hotp] at hc
              injection hc with hcc
              constructor
              · intro h301
                exfalso
                omega
              · intro _ hcq
                exfalso
                apply hcode
                rw [hcc]
                exact hcq

/-- Witness for C1: with a live stored code "654321" issued at time 0,
verification at elapsed 300000 ms with the correct code succeeds, and at
300001 ms it fails with the expiry error even for a wrong code. -/
theorem verifyOtp_characterization_witness :
    (verifyOtp "emp001" "654321" 300000 (some usersLiveOtp)).1.success = true
    ∧ (verifyOtp "emp001" "999999" 300001 (some usersLiveOtp)).1.error =
        some "OTP has expired. Please generate a new one." := by
  have h1 := verifyOtp_characterization 300000 usersLiveOtp "emp001" "654321"
  have h2 := verifyOtp_characterization 300001 usersLiveOtp "emp001" "999999"
  refine ⟨(h1.2 liveOtpUser "654321" 0 rfl rfl (by decide) rfl).2 (Or.inr (by decide)) rfl, ?_⟩
  exact (h2.2 liveOtpUser "654321" 0 rfl rfl (by decide) rfl).1 (by decide)

/-- Counterexample to C1 as frozen: a stored OTP that is the empty string is
present in the record together with its creation time, the elapsed time is 0,
and the submitted code equals the stored one — yet verification fails,
because JavaScript's `!user.otp` treats the empty string as missing. -/
theorem verifyOtp_empty_otp_counterexample :
    usersEmptyOtp.find? (fun v => v.id == "emp001" && v.role == Role.employee) =
        some emptyOtpUser
    ∧ emptyOtpUser.otp = some ""
    ∧ emptyOtpUser.otp_created_at = some 0
    ∧ ((0 : Int) - 0 ≤ 300000)
    ∧ ("" : String) = ""
    ∧ (verifyOtp "emp001" "" 0 (some usersEmptyOtp)).1.success = false
    ∧ (verifyOtp "emp001" "" 0 (some usersEmptyOtp)).1.error =
        some "No active OTP found for this user. Please generate one." := by
  refine ⟨rfl, rfl, rfl, by decide, rfl, by decide, by decide⟩

/-- Claim C6: `loginUser` succeeds only for admins — for the id "admin"
exactly when the password is "admin", for any other admin exactly when the
supplied password equals the stored plaintext one — and otherwise fails with
the user-not-found error when no user carries the id, the invalid-credentials
error for an admin with a wrong password, and the unsupported-login-method
error for every employee. -/
theorem loginUser_characterization (users : List AuthenticatedUser) (userId : String)
    (pw : Option String) :
    (((loginUser userId pw (some users)).1.success = true) ↔
      (∃ u, users.find? (fun v => v.id == userId) = some u ∧ u.role = Role.admin ∧
        ((u.id = "admin" ∧ pw = some "admin") ∨ (u.id ≠ "admin" ∧ u.password = pw))))
    ∧ ((∀ v ∈ users, v.id ≠ userId) →
        (loginUser userId pw (some users)).1.error = some "User not found")
    ∧ (∀ u, users.find? (fun v => v.id == userId) = some u → u.role = Role.admin →
        (loginUser userId pw (some users)).1.success = false →
        (loginUser userId pw (some users)).1.error =
          some "Invalid credentials for this admin user.")
    ∧ (∀ u, users.find? (fun v => v.id == userId) = some u → u.role = Role.employee →
        (loginUser userId pw (some users)).1.error =
          some "Login method not applicable for this user type here.") := by
  cases hfind : users.find? (fun v => v.id == userId) with
  | none =>
    have hres : loginUser userId pw (some users) =
        ({ success := false, error := some "User not found" }, some users) := by
      unfold loginUser
      simp only [loadUsersFromFile, hfind]
    rw [hres]
    refine ⟨by simp, fun _ => rfl, ?_, ?_⟩
    · intro u hu
      simp at hu
    · intro u hu
      simp at hu
  | some u =>
    have hmem := List.mem_of_find?_eq_some hfind
    have hpred : u.id = userId := by
      have := List.find?_some hfind
      simpa using this
    by_cases hrole : u.role = Role.admin
    · by_cases h1 : u.id = "admin" ∧ pw = some "admin"
      · have hres : loginUser userId pw (some users) =
            ({ success := true, user := some ⟨u.id, u.name, u.role⟩ }, some users) := by
          unfold loginUser
          simp only [loadUsersFromFile, hfind]
          rw [if_pos hrole, if_pos h1]
        rw [hres]
        refine ⟨⟨fun _ => ⟨u, rfl, hrole, Or.inl h1⟩, fun _ => rfl⟩, ?_, ?_, ?_⟩
        · intro hall
          exact absurd hpred (hall u hmem)
        · intro u1 hu _ hsucc
          cases hsucc
        · intro u1 hu hrole1
          injection hu with he
          subst he
          rw [hrole] at hrole1
          cases hrole1
      · by_cases h2 : u.id ≠ "admin" ∧ u.password = pw
        · have hres : loginUser userId pw (some users) =
              ({ success := true, user := some ⟨u.id, u.name, u.role⟩ }, some users) := by
            unfold loginUser
            simp only [loadUsersFromFile, hfind]
            rw [if_pos hrole, if_neg h1, if_pos h2]
          rw [hres]
          refine ⟨⟨fun _ => ⟨u, rfl, hrole, Or.inr h2⟩, fun _ => rfl⟩, ?_, ?_, ?_⟩
          · intro hall
            exact absurd hpred (hall u hmem)
          · intro u1 hu _ hsucc
            cases hsucc
          · intro u1 hu hrole1
            injection hu with he
            subst he
            rw [hrole] at hrole1
            cases hrole1
        · have hres : loginUser userId pw (some users) =
              ({ success := false,
                 error := some "Invalid credentials for this admin user." }, some users) := by
            unfold loginUser
            simp only [loadUsersFromFile, hfind]
            rw [if_pos hrole, if_neg h1, if_neg h2]
          rw [hres]
          refine ⟨?_, ?_, ?_, ?_⟩
          · constructor
            · intro hs
              simp at hs
            · rintro ⟨u1, hu, hrole1, hdisj⟩
              injection hu with he
              subst he
              rcases hdisj with hd | hd
              · exact absurd hd h1
              · exact absurd hd h2
          · intro hall
            exact absurd hpred (hall u hmem)
          · intro u1 hu hr hs
            rfl
          · intro u1 hu hrole1
            injection hu with he
            subst he
            rw [hrole] at hrole1
            cases hrole1
    · have hres : loginUser userId pw (some users) =
          ({ success := false,
             error := some "Login method not applicable for this user type here." },
           some users) := by
        unfold loginUser
        simp only [loadUsersFromFile, hfind]
        rw [if_neg hrole]
      rw [hres]
      refine ⟨?_, ?_, ?_, ?_⟩
      · constructor
        · intro hs
          simp at hs
        · rintro ⟨u1, hu, hrole1, _⟩
          injection hu with he
          subst he
          exact absurd hrole1 hrole
      · intro hall
        exact absurd hpred (hall u hmem)
      · intro u1 hu hr _
        injection hu with he
        subst he
        exact absurd hr hrole
      · intro u1 hu _
        rfl

/-- Witness for C6 at the default users: "admin"/"admin" succeeds, a login of
the default employee fails with the unsupported-method error, and an unknown
id fails with the user-not-found error. -/
theorem loginUser_characterization_witness :
    (loginUser "admin" (some "admin") (some initialMockUsers)).1.success = true
    ∧ (loginUser "employee" none (some initialMockUsers)).1.error =
        some "Login method not applicable for this user type here."
    ∧ (loginUser "ghost" none (some initialMockUsers)).1.error = some "User not found" := by
  have h1 := loginUser_characterization initialMockUsers "admin" (some "admin")
  have h2 := loginUser_characterization initialMockUsers "employee" none
  have h3 := loginUser_characterization initialMockUsers "ghost" none
  refine ⟨?_, ?_, ?_⟩
  · exact h1.1.mpr ⟨{ id := "admin", name := "Administrator", role := Role.admin },
      rfl, rfl, Or.inl ⟨rfl, rfl⟩⟩
  · exact h2.2.2.2 { id := "employee", name := "Default Employee", role := Role.employee } rfl rfl
  · exact h3.2.1 (by decide)

/-- Claim C7: deleting the protected ids "admin" or "employee" fails in every
store state; for any other id present in the store, the first `deleteUser`
call succeeds and removes exactly the users with that id, and a second call
with the same id fails with the not-found error. -/
theorem deleteUser_semantics (uid : String) (st : UsersFile) :
    ((uid = "admin" ∨ uid = "employee") → (deleteUser uid st).1.success = false)
    ∧ (uid ≠ "admin" → uid ≠ "employee" →
        (∃ u ∈ (loadUsersFromFile st).1, u.id = uid) →
        ((deleteUser uid st).1.success = true
          ∧ (deleteUser uid st).2 =
              some ((loadUsersFromFile st).1.filter (fun u => u.id != uid))
          ∧ (deleteUser uid (deleteUser uid st).2).1.success = false
          ∧ (deleteUser uid (deleteUser uid st).2).1.error = some "User not found.")) := by
  constructor
  · intro hprot
    simp only [deleteUser]
    rw [if_pos hprot]
  · intro hna hne hex
    have hprot : ¬ (uid = "admin" ∨ uid = "employee") := by
      rintro (h | h)
      · exact hna h
      · exact hne h
    have hlt : ((loadUsersFromFile st).1.filter (fun u => u.id != uid)).length <
        (loadUsersFromFile st).1.length := by
      rw [List.length_filter_lt_length_iff_exists]
      obtain ⟨u, hu, huid⟩ := hex
      exact ⟨u, hu, by simp [huid]⟩
    have hres : deleteUser uid st =
        ({ success := true, message := some "User deleted successfully." },
         some ((loadUsersFromFile st).1.filter (fun u => u.id != uid))) := by
      simp only [deleteUser]
      rw [if_neg hprot, if_pos hlt]
    have hfix : ((loadUsersFromFile st).1.filter (fun u => u.id != uid)).filter
        (fun u => u.id != uid) = (loadUsersFromFile st).1.filter (fun u => u.id != uid) := by
      rw [List.filter_eq_self]
      intro a ha
      exact (List.mem_filter.mp ha).2
    have hres2 : ∀ F : List AuthenticatedUser, F.filter (fun u => u.id != uid) = F →
        deleteUser uid (some F) =
        ({ success := false, error := some "User not found." }, some F) := by
      intro F hF
      simp only [deleteUser, loadUsersFromFile]
      rw [if_neg hprot, hF, if_neg (lt_irrefl _)]
    rw [hres]
    exact ⟨rfl, rfl, by rw [hres2 _ hfix], by rw [hres2 _ hfix]⟩

/-- Witness for C7 at the default users: deleting "emp001" succeeds once and
fails the second time; deleting "admin" is always refused. -/
theorem deleteUser_semantics_witness :
    (deleteUser "emp001" (some initialMockUsers)).1.success = true
    ∧ (deleteUser "emp001" (deleteUser "emp001" (some initialMockUsers)).2).1.error =
        some "User not found."
    ∧ (deleteUser "admin" (some initialMockUsers)).1.success = false := by
  have h := deleteUser_semantics "emp001" (some initialMockUsers)
  have hp := deleteUser_semantics "admin" (some initialMockUsers)
  have hmain := h.2 (by decide) (by decide) (by decide)
  exact ⟨hmain.1, hmain.2.2.2, hp.1 (Or.inl rfl)⟩

/-- No branch of `verifyOtp` ever writes the users file. -/
theorem verifyOtp_state_eq (uid otpIn : String) (now : Int) (l : List AuthenticatedUser) :
    (verifyOtp uid otpIn now (some l)).2 = some l := by
  simp only [verifyOtp, loadUsersFromFile]
  cases hfind : l.find? (fun u => u.id == uid && u.role == Role.employee) with
  | none => rfl
  | some u =>
    rcases hotp : u.otp with _ | c <;> rcases hca : u.otp_created_at with _ | t <;>
      simp only [hotp, hca]
    all_goals first
    | rfl
    | (split_ifs <;> rfl)

/-- Claim C9: given that the users file exists, every Auth Store operation
that reports failure leaves the persisted users record exactly as it was —
no error path writes the store.  (`verifyOtp` in fact never writes at all.) -/
theorem authStore_failure_preserves_users (l : List AuthenticatedUser)
    (uid uname pwd otpIn adminName : String) (role : Role) (rnd : Nat) (now : Int)
    (newPw : Option String) :
    ((addUser uid uname pwd role (some l)).1.success = false →
        (addUser uid uname pwd role (some l)).2 = some l)
    ∧ ((deleteUser uid (some l)).1.success = false →
        (deleteUser uid (some l)).2 = some l)
    ∧ ((verifyOtp uid otpIn now (some l)).1.success = false →
        (verifyOtp uid otpIn now (some l)).2 = some l)
    ∧ ((generateAndStoreOTP uid rnd now (some l)).1.success = false →
        (generateAndStoreOTP uid rnd now (some l)).2 = some l)
    ∧ ((updateAdminDetails uid adminName newPw (some l)).1.success = false →
        (updateAdminDetails uid adminName newPw (some l)).2 = some l)
    ∧ ((revokeOTP uid (some l)).1.success = false →
        (revokeOTP uid (some l)).2 = some l) := by
  refine ⟨?add, ?del, ?ver, ?gen, ?upd, ?rev⟩
  case add =>
    intro hfail
    by_cases hdup : (l.any (fun u => jsToLowerCase u.id == jsToLowerCase uid)) = true
    · simp only [addUser, loadUsersFromFile]
      rw [if_pos hdup]
    · exfalso
      have hs : (addUser uid uname pwd role (some l)).1.success = true := by
        simp only [addUser, loadUsersFromFile]
        rw [if_neg hdup]
      exact absurd (hs.symm.trans hfail) (by decide)
  case del =>
    intro hfail
    by_cases hprot : uid = "admin" ∨ uid = "employee"
    · simp only [deleteUser, loadUsersFromFile]
      rw [if_pos hprot]
    · by_cases hlt : (l.filter (fun u => u.id != uid)).length < l.length
      · exfalso
        have hs : (deleteUser uid (some l)).1.success = true := by
          simp only [deleteUser, loadUsersFromFile]
          rw [if_neg hprot, if_pos hlt]
        exact absurd (hs.symm.trans hfail) (by decide)
      · simp only [deleteUser, loadUsersFromFile]
        rw [if_neg hprot, if_neg hlt]
  case ver =>
    intro _
    exact verifyOtp_state_eq uid otpIn now l
  case gen =>
    intro hfail
    cases hfind : l.find? (fun u => u.id == uid && u.role == Role.employee) with
    | none =>
      simp only [generateAndStoreOTP, loadUsersFromFile, hfind]
    | some u =>
      exfalso
      have hs : (generateAndStoreOTP uid rnd now (some l)).1.success = true := by
        simp only [generateAndStoreOTP, loadUsersFromFile, hfind]
      exact absurd (hs.symm.trans hfail) (by decide)
  case upd =>
    intro hfail
    cases hfind : l.find? (fun u => u.id == uid && u.role == Role.admin) with
    | none =>
      simp only [updateAdminDetails, loadUsersFromFile, hfind]
    | some u =>
      exfalso
      have hs : (updateAdminDetails uid adminName newPw (some l)).1.success = true := by
        simp only [updateAdminDetails, loadUsersFromFile, hfind]
      exact absurd (hs.symm.trans hfail) (by decide)
  case rev =>
    intro hfail
    cases hfind : l.find? (fun u => u.id == uid && u.role == Role.employee) with
    | none =>
      simp only [revokeOTP, loadUsersFromFile, hfind]
    | some u =>
      exfalso
      have hs : (revokeOTP uid (some l)).1.success = true := by
        simp only [revokeOTP, loadUsersFromFile, hfind]
      exact absurd (hs.symm.trans hfail) (by decide)

/-- Witness for C9: one concrete failing call of each operation on the
default users leaves the persisted record untouched. -/
theorem authStore_failure_preserves_users_witness :
    (addUser "ADMIN" "X" "p" Role.admin (some initialMockUsers)).2 = some initialMockUsers
    ∧ (deleteUser "admin" (some initialMockUsers)).2 = some initialMockUsers
    ∧ (verifyOtp "ghost" "1" 0 (some initialMockUsers)).2 = some initialMockUsers
    ∧ (generateAndStoreOTP "admin" 0 0 (some initialMockUsers)).2 = some initialMockUsers
    ∧ (updateAdminDetails "ghost" "n" none (some initialMockUsers)).2 = some initialMockUsers
    ∧ (revokeOTP "admin" (some initialMockUsers)).2 = some initialMockUsers := by
  have h1 := authStore_failure_preserves_users initialMockUsers "ADMIN" "X" "p" "1" "n"
    Role.admin 0 0 none
  have h2 := authStore_failure_preserves_users initialMockUsers "admin" "X" "p" "1" "n"
    Role.admin 0 0 none
  have h3 := authStore_failure_preserves_users initialMockUsers "ghost" "X" "p" "1" "n"
    Role.admin 0 0 none
  exact ⟨h1.1 (by decide), h2.2.1 (by decide), h3.2.2.1 (by decide),
    h2.2.2.2.1 (by decide), h3.2.2.2.2.1 (by decide), h2.2.2.2.2.2 (by decide)⟩
